import Mathlib

/-!
A verification model of `dedup.py` (duplicate-file remover).

The Python program walks one or more writable target directory trees and
deletes files whose byte content duplicates a previously catalogued target
file; it then walks read-only trees, deleting the *target* copy of any file
that duplicates a read-only file; finally it can prune directories under the
target roots that became empty.

The embedding below is a shallow model of `src/dedup.py`:

* paths are lists of components (`FPath`); the filesystem is an association
  list from path to byte content (`FS`); byte content is `List Nat` and
  `os.path.getsize` is content length (the real size is the byte count);
* the SQLAlchemy in-memory table of `File` rows is an insertion-ordered list
  (`List File`); an unordered SQLite query on an autoincrement table returns
  rows in insertion order, which is what the list models;
* `os.walk(d)` (top-down, not following symlinks) is the pre-order listing
  `walkTree d t` of the directory tree `t` rooted at `d`.  Listings are read
  when a directory is visited; a file name is dropped from a listing when the
  file was already deleted (`os.walk` lists the live directory);
* `input()` is a list of pending stdin lines; `sys.exit(0)` on answer `q`,
  `EOFError` on exhausted stdin, the `RuntimeError` of `target_file_dir`,
  and OS errors are modelled by the `Halt` error type of an `Except` result;
* `os.name` is posix (`'nt'`-only branches are dead) and there are no
  symbolic links, so `Path.resolve`/`samefile` in `is_same_or_subdir` is the
  identity on paths and the parent chain is `List.dropLast`.
-/

/-- A filesystem path, as its list of components below the filesystem root
(the POSIX root `/` is `[]`). -/
abbrev FPath := List String

/-- File content as a byte list. -/
abbrev Bytes := List Nat

/-- The live filesystem: an association list from file path to content.
Built without duplicate keys. -/
abbrev FS := List (FPath × Bytes)

/-- The `File` ORM row of `dedup.py`: one catalogued target file, with the
columns `full_path`, `extension` and `size` (the autoincrement `id` is the
position in the insertion-ordered list that models the table). -/
structure File where
  full_path : FPath
  extension : String
  size : Nat
deriving Repr, DecidableEq

/-- `DirStats` of `dedup.py`: per-root counters.  The display-only
`directory` string is omitted. -/
structure DirStats where
  is_target_dir : Bool := false
  dup_file_count : Nat := 0
  dup_file_size : Nat := 0
  total_file_count : Nat := 0
  total_file_size : Nat := 0
  total_dir_count : Nat := 0
  empty_dir_count : Nat := 0
deriving Repr, DecidableEq

/-- The ways a run can stop abnormally: `quit` is `sys.exit(0)` from the `q`
answer; `eofError` is `input()` on exhausted stdin; `runtimeError` is the
`RuntimeError` of `target_file_dir`; `osError true` is `OSError(ENOTEMPTY)`
from `os.rmdir`; `osError false` is any other `OSError`; `ioError` is an
unexpected filesystem error (missing file). -/
inductive Halt where
  | quit
  | eofError
  | runtimeError
  | osError (notempty : Bool)
  | ioError
deriving Repr, DecidableEq

/-- One `(dirpath, dirnames, filenames)` triple yielded by `os.walk`. -/
structure WalkItem where
  dirpath : FPath
  dirnames : List String
  files : List String
deriving Repr, DecidableEq

mutual
/-- A directory tree: named files with content, and named subdirectories. -/
inductive DirTree where
  | node : List (String × Bytes) → DirForest → DirTree
/-- A list of named subdirectories (mutual with `DirTree`). -/
inductive DirForest where
  | nil : DirForest
  | cons : String → DirTree → DirForest → DirForest
end

/-- The names of the subdirectories of a forest. -/
def forestNames : DirForest → List String
  | .nil => []
  | .cons n _ rest => n :: forestNames rest

mutual
/-- `os.walk` (top-down, `followlinks=False`): the pre-order listing of the
tree `t` rooted at path `p`, as `(dirpath, dirnames, filenames)` triples. -/
def walkTree (p : FPath) : DirTree → List WalkItem
  | .node files subs => ⟨p, forestNames subs, files.map Prod.fst⟩ :: walkForest p subs
/-- Walk all subdirectories of a forest, in order. -/
def walkForest (p : FPath) : DirForest → List WalkItem
  | .nil => []
  | .cons n t rest => walkTree (p ++ [n]) t ++ walkForest p rest
end

mutual
/-- All `(path, content)` pairs of the files of a tree rooted at `p`. -/
def treeFiles (p : FPath) : DirTree → List (FPath × Bytes)
  | .node files subs => files.map (fun fc => (p ++ [fc.1], fc.2)) ++ forestFiles p subs
/-- All `(path, content)` pairs of the files of a forest. -/
def forestFiles (p : FPath) : DirForest → List (FPath × Bytes)
  | .nil => []
  | .cons n t rest => treeFiles (p ++ [n]) t ++ forestFiles p rest
end

/-- Look a file up in the filesystem. -/
def lookupFS : FS → FPath → Option Bytes
  | [], _ => none
  | e :: rest, p => if e.1 = p then some e.2 else lookupFS rest p

/-- `os.remove`: delete a file; `none` models the `OSError` raised when the
file does not exist. -/
def removeFileFS (fs : FS) (p : FPath) : Option FS :=
  if (lookupFS fs p).isSome then some (fs.filter (fun e => !decide (e.1 = p))) else none

/-- Add a file to the filesystem unless the path is already present (the
trees describe one on-disk filesystem, so a path occurs once even when roots
overlap). -/
def addFS (fs : FS) (e : FPath × Bytes) : FS :=
  if (lookupFS fs e.1).isSome then fs else fs ++ [e]

/-- The initial filesystem holding the files of all given rooted trees. -/
def buildFS (roots : List (FPath × DirTree)) : FS :=
  (roots.flatMap (fun r => treeFiles r.1 r.2)).foldl addFS []

/-- Index of the rightmost `'.'` of a character list (`str.rfind('.')`),
`none` when absent. -/
def rfindDot (l : List Char) : Option Nat :=
  match l.reverse.findIdx? (fun ch => ch = '.') with
  | none => none
  | some j => some (l.length - 1 - j)

/-- `os.path.splitext` for a bare file name (no `'/'` separator — every call
site passes an `os.walk` file name): split at the rightmost dot unless every
character before it is itself a dot (leading dots of the component belong to
the root, per `genericpath._splitext`). -/
def splitext (l : List Char) : List Char × List Char :=
  match rfindDot l with
  | none => (l, [])
  | some i => if (l.take i).any (fun ch => !decide (ch = '.')) then (l.take i, l.drop i) else (l, [])

/-- `get_extension` of `dedup.py`: the `splitext` extension, or the whole
name when the extension is empty and the name starts with a dot.  (On the
empty name the Python code raises `IndexError` at `base[0]`; `os.walk` never
yields an empty file name, and the model returns `""` there.) -/
def get_extension (file : String) : String :=
  let be := splitext file.data
  if be.2 = [] ∧ be.1.head? = some '.' then ⟨be.1⟩ else ⟨be.2⟩

/-- The comparison chain of `is_same_or_subdir`, over the child path written
in reverse component order: compare the child and each of its ancestors
(down to the filesystem root `[]`) with the parent. -/
def issAux (parent : FPath) : List String → Bool
  | [] => decide (([] : FPath) = parent)
  | x :: rest => decide ((x :: rest).reverse = parent) || issAux parent rest

/-- `is_same_or_subdir` of `dedup.py`: whether `child` is the directory
`parent` or lies below it.  With no symbolic links in the model,
`Path.resolve` is the identity and `samefile` is path equality, so the
`while` loop comparing `child`, `child.parent`, … against `parent` is the
chain over `List.dropLast`. -/
def is_same_or_subdir (child parent : FPath) : Bool :=
  issAux parent child.reverse

/-- All ordered pairs of entries at distinct positions
(`itertools.permutations(l, 2)`). -/
def ordPairs {α : Type} (l : List α) : List (α × α) :=
  l.enum.flatMap (fun a => l.enum.filterMap (fun b => if a.1 = b.1 then none else some (a.2, b.2)))

/-- `check_dir_args` of `dedup.py`, restricted to its overlap checks (the
existence / not-a-symlink / is-a-directory checks hold by construction in
the model): every ordered pair of distinct target roots is unrelated, and no
target root equals or lies below a read-only root.  Note the code never
checks whether a read-only root lies below a target root. -/
def check_dir_args (target_dirs readonly_dirs : List FPath) : Bool :=
  (ordPairs target_dirs).all (fun pr => !is_same_or_subdir pr.1 pr.2) &&
  target_dirs.all (fun td => readonly_dirs.all (fun ro => !is_same_or_subdir td ro))

/-- The `stats.dir_stats` defaultdict: an association list from root path to
`DirStats`. -/
abbrev StatsMap := List (FPath × DirStats)

/-- Read a key, returning the defaultdict default when absent. -/
def statsGetD (m : StatsMap) (k : FPath) : DirStats :=
  match m with
  | [] => {}
  | e :: rest => if e.1 = k then e.2 else statsGetD rest k

/-- Write a key, inserting it (defaultdict behaviour) when absent. -/
def statsSet : StatsMap → FPath → DirStats → StatsMap
  | [], k, v => [(k, v)]
  | e :: rest, k, v => if e.1 = k then (k, v) :: rest else e :: statsSet rest k v

/-- The whole mutable state of a run. `pending` is the remaining stdin;
`gated` logs every path passed to `remove_with_confirm` (the deletion gate);
`deletedFiles` logs the files actually removed by `os.remove`;
`removedDirs` logs the directories actually removed by `os.rmdir`. -/
structure RunState where
  fs : FS
  db : List File
  stats : StatsMap
  pending : List String
  gated : List FPath
  deletedFiles : List FPath
  removedDirs : List FPath
deriving Repr, DecidableEq

/-- Mutate one root's `DirStats` in place (`s = stats.dir_stats[d]` followed
by field updates on `s`). -/
def statsUpd (st : RunState) (k : FPath) (f : DirStats → DirStats) : RunState :=
  { st with stats := statsSet st.stats k (f (statsGetD st.stats k)) }

/-- The outcome of the prompt loop of `remove_with_confirm`: the accepted
first characters `y`, `n` (and, for files, `s`); `q` leaves through
`sys.exit(0)` and never reaches the caller. -/
inductive GateAnswer where
  | yes
  | no
  | skip
deriving Repr, DecidableEq

/-- The prompt loop of `remove_with_confirm`.  Each line is reduced to its
lowercased first character (`answer[0].lower()`, the empty line staying
empty).  Branches, in source order: `s` (files only) sets the skip result;
`q` is `sys.exit(0)`; then `answer not in 'yn'` re-prompts — Python's
substring test, under which the *empty* answer is in `'yn'` and is therefore
accepted and, not being `'y'`, treated as a decline.  Exhausted stdin is
`EOFError`. -/
def promptLoop (is_dir : Bool) : List String → Except Halt (GateAnswer × List String)
  | [] => .error .eofError
  | line :: rest =>
    let a : Option Char := line.data.head?.map Char.toLower
    if is_dir = false ∧ a = some 's' then .ok (.skip, rest)
    else if a = some 'q' then .error .quit
    else if a = none ∨ a = some 'y' ∨ a = some 'n' then
      .ok (if a = some 'y' then .yes else .no, rest)
    else promptLoop is_dir rest

/-- `remove_with_confirm` applied to a *file* (its `is_dir` test is false):
log the path as passed to the gate, run the prompt loop when confirming, and
delete the file unless the answer was `n` or `s`.  On `s` the returned skip
value is the parent directory of the *deleted-candidate file*
(`file_or_dir_path.parent`). -/
def removeFileWithConfirm (confirm : Bool) (p : FPath) (st : RunState) :
    Except Halt (Option FPath × RunState) :=
  let st := { st with gated := st.gated ++ [p] }
  if confirm then
    match promptLoop false st.pending with
    | .error h => .error h
    | .ok (ans, rest) =>
      let st := { st with pending := rest }
      match ans with
      | .skip => .ok (some p.dropLast, st)
      | .no => .ok (none, st)
      | .yes =>
        match removeFileFS st.fs p with
        | none => .error .ioError
        | some fs' => .ok (none, { st with fs := fs', deletedFiles := st.deletedFiles ++ [p] })
  else
    match removeFileFS st.fs p with
    | none => .error .ioError
    | some fs' => .ok (none, { st with fs := fs', deletedFiles := st.deletedFiles ++ [p] })

/-- `target_file_dir` of `walk_dirs`, over the reversed remaining path:
return the first ancestor that is a `dir_stats` key; raising `RuntimeError`
when the chain reaches the filesystem root (`tfp.parent == tfp`) without a
hit. -/
def tfdAux (keys : List FPath) : List String → Except Halt FPath
  | [] => if ([] : FPath) ∈ keys then .ok [] else .error .runtimeError
  | x :: rest =>
    if (x :: rest).reverse ∈ keys then .ok ((x :: rest).reverse) else tfdAux keys rest

/-- `target_file_dir`: starting from the parent directory of the catalogued
file `p`, walk up until a `dir_stats` key is found. -/
def target_file_dir (keys : List FPath) (p : FPath) : Except Halt FPath :=
  tfdAux keys p.dropLast.reverse

/-- `filecmp.cmp(p, q, shallow=False)`: byte equality of the two files'
contents; `none` models the exception raised when either file is missing. -/
def cmpFiles (fs : FS) (p q : FPath) : Option Bool :=
  match lookupFS fs p, lookupFS fs q with
  | some a, some b => some (decide (a = b))
  | _, _ => none

/-- The row loop of `walk_dirs`: compare the candidate `p` against each
fetched row in order, stopping at the first byte-identical row (the `break`)
and also returning the list of rows actually compared. -/
def findMatchAux (fs : FS) (p : FPath) : List File → Except Halt (Option File × List File)
  | [] => .ok (none, [])
  | r :: rest =>
    match cmpFiles fs p r.full_path with
    | none => .error .ioError
    | some true => .ok (some r, [r])
    | some false =>
      match findMatchAux fs p rest with
      | .error h => .error h
      | .ok (m, cs) => .ok (m, r :: cs)

/-- The query `session.query(File).filter(size ==).filter(extension ==)`:
the rows whose size and extension both match, in insertion order. -/
def bucketRows (db : List File) (size : Nat) (ext : String) : List File :=
  db.filter (fun r => decide (r.size = size ∧ r.extension = ext))

/-- The duplicate resolver of `walk_dirs`: fetch the same-size same-extension
rows and scan them for the first byte-identical one. -/
def findMatch (fs : FS) (db : List File) (p : FPath) (size : Nat) (ext : String) :
    Except Halt (Option File × List File) :=
  findMatchAux fs p (bucketRows db size ext)

/-- The two flags of `walk_dirs` that vary per phase. -/
structure WalkCfg where
  confirm : Bool
  walking_target_dirs : Bool

/-- The per-file body of the `for file in files` loop of `walk_dirs`:
extension, `os.path.getsize`, total counters, the duplicate query, and — on
a match — the duplicate counters, the deletion gate and (read-only walk
only) `target_file_dir` attribution and `session.delete` of the matched row.
Returns the `skip` value left by the gate. -/
def processFile (cfg : WalkCfg) (d root : FPath) (name : String) (st : RunState) :
    Except Halt (Option FPath × RunState) :=
  let ext := get_extension name
  let p := root ++ [name]
  match lookupFS st.fs p with
  | none => .error .ioError
  | some c =>
    let size := c.length
    let st := statsUpd st d (fun s =>
      { s with total_file_count := s.total_file_count + 1,
               total_file_size := s.total_file_size + size })
    match findMatch st.fs st.db p size ext with
    | .error h => .error h
    | .ok (none, _) =>
      -- not a duplicate: catalogue the file when walking target roots
      if cfg.walking_target_dirs then
        .ok (none, { st with db := st.db ++ [⟨p, ext, size⟩] })
      else
        .ok (none, st)
    | .ok (some row, _) =>
      if cfg.walking_target_dirs then
        let st := statsUpd st d (fun s =>
          { s with dup_file_count := s.dup_file_count + 1,
                   dup_file_size := s.dup_file_size + size })
        removeFileWithConfirm cfg.confirm p st
      else
        match target_file_dir (st.stats.map Prod.fst) row.full_path with
        | .error h => .error h
        | .ok troot =>
          let st := statsUpd st troot (fun s =>
            { s with dup_file_count := s.dup_file_count + 1,
                     dup_file_size := s.dup_file_size + size })
          match removeFileWithConfirm cfg.confirm row.full_path st with
          | .error h => .error h
          | .ok (skip, st) =>
            .ok (skip, { st with db := st.db.erase row })

/-- The `for file in files` loop: process each listed file, breaking out as
soon as the gate returned a skip value (`if skip is not None: break`). -/
def processFiles (cfg : WalkCfg) (d root : FPath) : List String → RunState →
    Except Halt (Option FPath × RunState)
  | [], st => .ok (none, st)
  | n :: rest, st =>
    match processFile cfg d root n st with
    | .error h => .error h
    | .ok (some sk, st') => .ok (some sk, st')
    | .ok (none, st') => processFiles cfg d root rest st'

/-- The `for root, dirs, files in os.walk(d)` loop: honour a pending skip
while the visited directory still lies under the skip directory, clear it
otherwise, count the directory, and process its live file listing. -/
def processItems (cfg : WalkCfg) (d : FPath) : List WalkItem → Option FPath → RunState →
    Except Halt RunState
  | [], _, st => .ok st
  | it :: rest, skip, st =>
    if (match skip with | some sk => is_same_or_subdir it.dirpath sk | none => false) then
      processItems cfg d rest skip st
    else
      let st := statsUpd st d (fun s => { s with total_dir_count := s.total_dir_count + 1 })
      let names := it.files.filter (fun n => (lookupFS st.fs (it.dirpath ++ [n])).isSome)
      match processFiles cfg d it.dirpath names st with
      | .error h => .error h
      | .ok (skip', st') => processItems cfg d rest skip' st'

/-- Walk one root: register it in `dir_stats` (setting `is_target_dir`) and
walk its tree with no pending skip. -/
def walkRoot (cfg : WalkCfg) (st : RunState) (r : FPath × DirTree) : Except Halt RunState :=
  let st := statsUpd st r.1 (fun s => { s with is_target_dir := cfg.walking_target_dirs })
  processItems cfg r.1 (walkTree r.1 r.2) none st

/-- `walk_dirs` of `dedup.py`: walk each root in turn. -/
def walk_dirs (cfg : WalkCfg) : List (FPath × DirTree) → RunState → Except Halt RunState
  | [], st => .ok st
  | r :: rest, st =>
    match walkRoot cfg st r with
    | .error h => .error h
    | .ok st' => walk_dirs cfg rest st'

/-- The `os.walk` listings seen by the pruning phase: the target trees with
file names filtered down to the files still on disk (directories were not
touched by the walk phases). -/
def pruneItems (fs : FS) (d : FPath) (t : DirTree) : List WalkItem :=
  (walkTree d t).map (fun it =>
    { it with files := it.files.filter (fun n => (lookupFS fs (it.dirpath ++ [n])).isSome) })

/-- Whether directory `p` is empty right now: `none` when `p` is not a known
directory; otherwise true iff it has no live file and all its
subdirectories have been removed. -/
def dirEmptyNow (items : List WalkItem) (removed : List FPath) (p : FPath) : Option Bool :=
  (items.find? (fun it => decide (it.dirpath = p))).map (fun it =>
    it.files.isEmpty && it.dirnames.all (fun n => decide ((p ++ [n]) ∈ removed)))

/-- The outcome of `remove_with_confirm` on a directory: returned normally
(`ok`, whether or not the removal happened), raised `OSError(ENOTEMPTY)`
(`notEmpty`), or ended the run (`halt`: `sys.exit(0)` or `EOFError`). -/
inductive DirGateOut where
  | ok
  | notEmpty
  | halt (h : Halt)
deriving Repr, DecidableEq

/-- `os.rmdir`: remove `p` if it is currently empty; `ENOTEMPTY` otherwise;
a missing directory is a different (fatal) `OSError`. -/
def rmdirModel (items : List WalkItem) (p : FPath) (st : RunState) : DirGateOut × RunState :=
  match dirEmptyNow items st.removedDirs p with
  | none => (.halt .ioError, st)
  | some false => (.notEmpty, st)
  | some true => (.ok, { st with removedDirs := st.removedDirs ++ [p] })

/-- `remove_with_confirm` applied to a *directory* (its `is_dir` test is
true, so the prompt offers `y/n/q` and `s` is invalid input): log the gate
entry, prompt if confirming, and attempt `os.rmdir` unless declined.  The
state returned with `notEmpty` keeps the consumed stdin. -/
def removeDirWithConfirm (items : List WalkItem) (confirm : Bool) (p : FPath) (st : RunState) :
    DirGateOut × RunState :=
  let st := { st with gated := st.gated ++ [p] }
  if confirm then
    match promptLoop true st.pending with
    | .error h => (.halt h, st)
    | .ok (ans, rest) =>
      let st := { st with pending := rest }
      match ans with
      | .skip => (.ok, st)   -- unreachable: the prompt loop of a directory never yields skip
      | .no => (.ok, st)
      | .yes => rmdirModel items p st
  else rmdirModel items p st

/-- The first pass of `remove_empty_directories` over one root's listings:
a directory with no files and no subdirectories is counted (the counter is
bumped *before* the gate runs) and handed to the gate; a directory with only
subdirectories is pushed with its owning root.  Gate exceptions propagate
(this pass has no `try`). -/
def pruneRoot1 (allItems : List WalkItem) (confirm : Bool) (d : FPath) :
    List WalkItem → RunState → List (FPath × FPath) →
    Except Halt (RunState × List (FPath × FPath))
  | [], st, stack => .ok (st, stack)
  | it :: rest, st, stack =>
    if it.files.isEmpty && it.dirnames.isEmpty then
      let st := statsUpd st d (fun s => { s with empty_dir_count := s.empty_dir_count + 1 })
      match removeDirWithConfirm allItems confirm it.dirpath st with
      | (.halt h, _) => .error h
      | (.notEmpty, _) => .error (.osError true)
      | (.ok, st') => pruneRoot1 allItems confirm d rest st' stack
    else if it.files.isEmpty then
      pruneRoot1 allItems confirm d rest st (stack ++ [(it.dirpath, d)])
    else
      pruneRoot1 allItems confirm d rest st stack

/-- First pass over every target root, accumulating the shared `dir_stack`;
`s = stats.dir_stats[d]` registers each root in `dir_stats` even when
nothing under it is removed. -/
def pruneRoots1 (allItems : List WalkItem) (confirm : Bool) :
    List (FPath × DirTree) → RunState → List (FPath × FPath) →
    Except Halt (RunState × List (FPath × FPath))
  | [], st, stack => .ok (st, stack)
  | r :: rest, st, stack =>
    let st := statsUpd st r.1 id
    match pruneRoot1 allItems confirm r.1 (pruneItems st.fs r.1 r.2) st stack with
    | .error h => .error h
    | .ok (st', stack') => pruneRoots1 allItems confirm rest st' stack'

/-- The second (retry) pass of `remove_empty_directories`, over the stacked
directories in pop order (LIFO: the input list is the reversal of the push
order).  `OSError(ENOTEMPTY)` from the gate is swallowed and the pass
continues; any other exception propagates; the counter is bumped after a
gate call that did not raise. -/
def prunePass2 (allItems : List WalkItem) (confirm : Bool) :
    List (FPath × FPath) → RunState → Except Halt RunState
  | [], st => .ok st
  | e :: rest, st =>
    match removeDirWithConfirm allItems confirm e.1 st with
    | (.halt h, _) => .error h
    | (.notEmpty, st') => prunePass2 allItems confirm rest st'
    | (.ok, st') =>
      prunePass2 allItems confirm rest
        (statsUpd st' e.2 (fun s => { s with empty_dir_count := s.empty_dir_count + 1 }))

/-- `remove_empty_directories` of `dedup.py`: walk the target roots pruning
immediately empty directories and stacking directories that held only
subdirectories, then retry the stack bottom-up. -/
def remove_empty_directories (roots : List (FPath × DirTree)) (confirm : Bool) (st : RunState) :
    Except Halt RunState :=
  let allItems := roots.flatMap (fun r => pruneItems st.fs r.1 r.2)
  match pruneRoots1 allItems confirm roots st [] with
  | .error h => .error h
  | .ok (st', stack) => prunePass2 allItems confirm stack.reverse st'

/-- The fresh state of a run over the given rooted trees. -/
def initState (targets ros : List (FPath × DirTree)) (pending : List String) : RunState :=
  { fs := buildFS (targets ++ ros), db := [], stats := [], pending := pending,
    gated := [], deletedFiles := [], removedDirs := [] }

/-- `deduplicate` of `dedup.py`: walk the target roots cataloguing and
deleting in-target duplicates, walk the read-only roots deleting the target
copy of cross-tree duplicates, then optionally prune empty target
directories. -/
def deduplicate (targets ros : List (FPath × DirTree)) (remove_empty confirm : Bool)
    (pending : List String) : Except Halt RunState :=
  match walk_dirs ⟨confirm, true⟩ targets (initState targets ros pending) with
  | .error h => .error h
  | .ok st1 =>
    match walk_dirs ⟨confirm, false⟩ ros st1 with
    | .error h => .error h
    | .ok st2 =>
      if remove_empty then remove_empty_directories targets confirm st2 else .ok st2

/-- `P` holds of the result when the computation succeeded (vacuous on an
abnormal stop). -/
def ExceptSat {α β : Type} (e : Except α β) (P : β → Prop) : Prop :=
  match e with
  | .ok b => P b
  | .error _ => True

/-- The computation succeeded. -/
def exceptOk {α β : Type} : Except α β → Prop
  | .ok _ => True
  | .error _ => False

/-- The full paths of the files listed by one walk item. -/
def itemFilePaths (it : WalkItem) : List FPath :=
  it.files.map (fun n => it.dirpath ++ [n])

/-- The full paths of all files listed by a walk. -/
def itemsFilePaths (items : List WalkItem) : List FPath :=
  items.flatMap itemFilePaths

/-- The full paths of every file under the given rooted trees, in walk
order. -/
def rootsFilePaths (roots : List (FPath × DirTree)) : List FPath :=
  roots.flatMap (fun r => itemsFilePaths (walkTree r.1 r.2))

/-- The catalog invariant: every catalogued file is on disk with its
recorded size, and no two catalogued files share both extension and byte
content. -/
def CatalogInv (st : RunState) : Prop :=
  (∀ r ∈ st.db, ∃ b, lookupFS st.fs r.full_path = some b ∧ b.length = r.size) ∧
  st.db.Pairwise (fun r1 r2 => r1.extension = r2.extension →
    lookupFS st.fs r1.full_path ≠ lookupFS st.fs r2.full_path)

/-- Concrete read-only-walk state for exercising the per-file step: the
catalog holds the target file `t/a`, the walker sits on the read-only file
`r/b` with the same bytes, and the next stdin line declines. -/
def roStepState : RunState :=
  { fs := [(["t", "a"], [1]), (["r", "b"], [1])],
    db := [⟨["t", "a"], "", 1⟩],
    stats := [(["t"], {}), (["r"], {})],
    pending := ["n"], gated := [], deletedFiles := [], removedDirs := [] }

/-- Concrete target-walk state for exercising the duplicate-counter step:
the catalog holds `t/a` and the walker sits on the byte-identical target
file `t/b`; the next stdin line declines. -/
def targetStepState : RunState :=
  { fs := [(["t", "a"], [1]), (["t", "b"], [1])],
    db := [⟨["t", "a"], "", 1⟩],
    stats := [(["t"], {})],
    pending := ["n"], gated := [], deletedFiles := [], removedDirs := [] }

/-- Concrete read-only-walk state for exercising the duplicate-counter
step: the catalog holds the target file `t/a` and the walker sits on the
byte-identical read-only file `r/b`; the next stdin line declines. -/
def roStep2State : RunState :=
  { fs := [(["t", "a"], [1]), (["r", "b"], [1])],
    db := [⟨["t", "a"], "", 1⟩],
    stats := [(["t"], {}), (["r"], {})],
    pending := ["n"], gated := [], deletedFiles := [], removedDirs := [] }

/-- Decidable equality of `Except` results, for evaluating the model at
concrete inputs. -/
instance {e a : Type} [DecidableEq e] [DecidableEq a] : DecidableEq (Except e a) := fun x y =>
  match x, y with
  | .ok v, .ok w =>
    if h : v = w then isTrue (by rw [h]) else isFalse (by intro hh; cases hh; exact h rfl)
  | .error v, .error w =>
    if h : v = w then isTrue (by rw [h]) else isFalse (by intro hh; cases hh; exact h rfl)
  | .ok _, .error _ => isFalse (by intro hh; cases hh)
  | .error _, .ok _ => isFalse (by intro hh; cases hh)

/-- C1: the pre-flight validation of `check_dir_args` only rejects a target
root equal to or nested in another target or read-only root; a *read-only
root nested in a target root* passes it, and in such a run the read-only
walk matches `t/sub/f` against its own catalog entry and deletes it — a
file whose directory is the read-only root is deleted.  This contradicts
the claim (and both the module docstring "No change to read-only
directories is ever made" and the `check_dir_args` docstring, which says
directories sharing subdirectories are rejected). -/
theorem c1_validated_overlap_deletes_readonly_file :
    check_dir_args [["t"]] [["t", "sub"]] = true ∧
    (deduplicate [(["t"], .node [] (.cons "sub" (.node [("f", [0])] .nil) .nil))]
        [(["t", "sub"], .node [("f", [0])] .nil)] false false []).map
      (fun st => st.deletedFiles) = .ok [["t", "sub", "f"]] ∧
    is_same_or_subdir (["t", "sub", "f"] : FPath).dropLast ["t", "sub"] = true := by
  decide

/-- C2 counterexample: two target files with identical bytes but different
extensions (`a.x` and `b.y`, both `[7]`) are *both* catalogued — the bucket
query filters on extension, so they never get compared.  After the target
walk the catalog holds two distinct entries with the same byte content,
refuting "at most one entry per distinct byte-content". -/
theorem c2_two_entries_same_content :
    (deduplicate [(["t"], .node [("a.x", [7]), ("b.y", [7])] .nil)] [] false false []).map
      (fun st => (st.db.map (fun r => r.full_path),
                  st.db.map (fun r => lookupFS st.fs r.full_path))) =
    .ok ([[("t" : String), "a.x"], ["t", "b.y"]], [some [(7 : Nat)], some [7]]) := by
  decide

/-- C3: when the user answers `s` to a match found while walking the
read-only directory `r`, the stored skip scope is the *matched target
file's* parent (`remove_with_confirm` returns `Path(target).parent`), which
never lies on the read-only walk, so only the remaining files of `r` are
skipped (via the loop break) while the subdirectory `r/sub` is still
processed: its file matches `t/d.x`, which gets deleted.  Under the claimed
behaviour (skip scoped to the read-only directory) `t/d.x` would survive. -/
theorem c3_skip_not_scoped_to_readonly_dir :
    (deduplicate [(["t"], .node [("a.x", [1]), ("d.x", [2])] .nil)]
        [(["r"], .node [("b.x", [1])] (.cons "sub" (.node [("c.x", [2])] .nil) .nil))]
        false true ["s", "y"]).map
      (fun st => (st.deletedFiles, st.db.map (fun r => r.full_path))) =
    .ok ([[("t" : String), "d.x"]], []) := by
  decide

/-- C5: `get_extension` on a name whose leading run of dots reaches past the
rightmost dot returns the whole name: `"..profile"` yields `"..profile"`
although the rightmost-dot rule of the claim (and of the function's own
docstring) gives `".profile"`.  The three documented examples do hold. -/
theorem c5_get_extension_leading_dots :
    get_extension "..profile" = "..profile" ∧ get_extension "..profile" ≠ ".profile" ∧
    get_extension "foo.bar" = ".bar" ∧ get_extension ".profile" = ".profile" ∧
    get_extension "bingles" = "" := by
  decide

/-- C6: an empty response line is accepted by the confirmation prompt and
treated as a decline — the file is kept, no usage hint is printed and no
re-prompt happens (Python's `answer not in 'yn'` is false for the empty
string).  By contrast a genuinely invalid line such as `"x"` does re-prompt:
with nothing further on stdin it dies with `EOFError` instead of returning. -/
theorem c6_empty_response_accepted_as_decline :
    removeFileWithConfirm true ["t", "f"]
        { fs := [(["t", "f"], [0])], db := [], stats := [], pending := [""], gated := [],
          deletedFiles := [], removedDirs := [] } =
      .ok (none,
        { fs := [(["t", "f"], [0])], db := [], stats := [], pending := [], gated := [["t", "f"]],
          deletedFiles := [], removedDirs := [] }) ∧
    removeFileWithConfirm true ["t", "f"]
        { fs := [(["t", "f"], [0])], db := [], stats := [], pending := ["x"], gated := [],
          deletedFiles := [], removedDirs := [] } =
      .error .eofError := by
  decide

/-- C7: a declined empty-directory removal is still counted.  Pruning a
single empty target root interactively with the answer `n` leaves the
directory in place (nothing removed, nothing deleted) yet its
`empty_dir_count` ends at 1 — the first pass increments the counter before
the gate runs.  This contradicts the claim that the counter is incremented
exactly once per *successful* removal and that a declined removal does not
increment it (and the docstring "count of empty directories that are
removed"). -/
theorem c7_declined_removal_still_counted :
    (remove_empty_directories [(["d"], .node [] .nil)] true
        { fs := [], db := [], stats := [], pending := ["n"], gated := [], deletedFiles := [],
          removedDirs := [] }).map
      (fun st => ((statsGetD st.stats ["d"]).empty_dir_count, st.removedDirs, st.gated)) =
    .ok (1, [], [[("d" : String)]]) := by
  decide

/-- The row loop characterized: under the hypothesis that the candidate and
every row's file are on disk, it returns the first byte-identical row
together with the list of rows compared — every row before the first match,
plus the match itself. -/
theorem findMatchAux_spec (fs : FS) (p : FPath) (c : Bytes) (hp : lookupFS fs p = some c) :
    ∀ rows : List File, (∀ r ∈ rows, (lookupFS fs r.full_path).isSome = true) →
    findMatchAux fs p rows =
      .ok (rows.find? (fun r => decide (lookupFS fs r.full_path = lookupFS fs p)),
        rows.takeWhile (fun r => !decide (lookupFS fs r.full_path = lookupFS fs p)) ++
        (rows.dropWhile (fun r => !decide (lookupFS fs r.full_path = lookupFS fs p))).take 1)
  | [], _ => by simp [findMatchAux]
  | r :: rest, hall => by
    have hr : (lookupFS fs r.full_path).isSome = true := hall r (by simp)
    obtain ⟨b, hb⟩ := Option.isSome_iff_exists.mp hr
    by_cases hcb : c = b
    · subst hcb
      simp [findMatchAux, cmpFiles, hp, hb]
    · have hne : lookupFS fs r.full_path ≠ lookupFS fs p := by
        rw [hp, hb]; intro h; exact hcb (Option.some.inj h).symm
      have hdec : decide (c = b) = false := decide_eq_false hcb
      have ih := findMatchAux_spec fs p c hp rest (fun r hrr => hall r (by simp [hrr]))
      simp only [findMatchAux, cmpFiles, hp, hb, hdec]
      rw [ih]
      have hne2 : ¬ (lookupFS fs r.full_path = some c) := by rw [← hp]; exact hne
      simp [hp, hne2, List.find?_cons, List.takeWhile_cons, List.dropWhile_cons]

/-- C4: for a candidate file on disk, the duplicate resolver fetches exactly
the catalog rows whose size and extension both match (a subsequence of the
catalog, in insertion order), byte-compares the candidate against them in
that order stopping at the first byte-identical row — the rows compared are
precisely those up to and including the first match — and returns `none`
exactly when no row of the bucket is byte-identical. -/
theorem c4_find_match_first_byte_equal (fs : FS) (db : List File) (p : FPath)
    (size : Nat) (ext : String) (c : Bytes) (hp : lookupFS fs p = some c)
    (hb : ∀ r ∈ bucketRows db size ext, (lookupFS fs r.full_path).isSome = true) :
    findMatch fs db p size ext =
      .ok ((bucketRows db size ext).find?
            (fun r => decide (lookupFS fs r.full_path = lookupFS fs p)),
        (bucketRows db size ext).takeWhile
            (fun r => !decide (lookupFS fs r.full_path = lookupFS fs p)) ++
        ((bucketRows db size ext).dropWhile
            (fun r => !decide (lookupFS fs r.full_path = lookupFS fs p))).take 1) ∧
    bucketRows db size ext = db.filter (fun r => decide (r.size = size ∧ r.extension = ext)) ∧
    (bucketRows db size ext).Sublist db ∧
    (∀ r ∈ bucketRows db size ext, r.size = size ∧ r.extension = ext ∧ r ∈ db) ∧
    ((bucketRows db size ext).find?
        (fun r => decide (lookupFS fs r.full_path = lookupFS fs p)) = none ↔
      ∀ r ∈ bucketRows db size ext, lookupFS fs r.full_path ≠ lookupFS fs p) := by
  refine ⟨findMatchAux_spec fs p c hp (bucketRows db size ext) hb, rfl,
    List.filter_sublist db, ?_, ?_⟩
  · intro r hr
    rw [bucketRows, List.mem_filter] at hr
    have h2 := of_decide_eq_true hr.2
    exact ⟨h2.1, h2.2, hr.1⟩
  · rw [List.find?_eq_none]
    constructor
    · intro h r hr
      have := h r hr
      simpa using this
    · intro h r hr
      simpa using h r hr

/-- Witness for C4 at a concrete catalog: the candidate `["p"]` (bytes
`[1]`) against a three-row catalog whose `(size 1, ".x")` bucket holds two
rows, the first byte-identical. -/
theorem c4_find_match_witness :
    lookupFS [((["p"] : FPath), ([1] : Bytes)), (["q"], [1]), (["r"], [2])] ["p"] = some [1] ∧
    (∀ r ∈ bucketRows [(⟨["q"], ".x", 1⟩ : File), ⟨["r"], ".x", 1⟩, ⟨["s"], ".y", 3⟩] 1 ".x",
      (lookupFS [((["p"] : FPath), ([1] : Bytes)), (["q"], [1]), (["r"], [2])] r.full_path).isSome
        = true) ∧
    (findMatch [((["p"] : FPath), ([1] : Bytes)), (["q"], [1]), (["r"], [2])]
        [(⟨["q"], ".x", 1⟩ : File), ⟨["r"], ".x", 1⟩, ⟨["s"], ".y", 3⟩] ["p"] 1 ".x" =
      .ok ((bucketRows [(⟨["q"], ".x", 1⟩ : File), ⟨["r"], ".x", 1⟩, ⟨["s"], ".y", 3⟩] 1
              ".x").find?
            (fun r => decide (lookupFS [((["p"] : FPath), ([1] : Bytes)), (["q"], [1]),
              (["r"], [2])] r.full_path =
              lookupFS [((["p"] : FPath), ([1] : Bytes)), (["q"], [1]), (["r"], [2])] ["p"])),
        (bucketRows [(⟨["q"], ".x", 1⟩ : File), ⟨["r"], ".x", 1⟩, ⟨["s"], ".y", 3⟩] 1
              ".x").takeWhile
            (fun r => !decide (lookupFS [((["p"] : FPath), ([1] : Bytes)), (["q"], [1]),
              (["r"], [2])] r.full_path =
              lookupFS [((["p"] : FPath), ([1] : Bytes)), (["q"], [1]), (["r"], [2])] ["p"])) ++
        ((bucketRows [(⟨["q"], ".x", 1⟩ : File), ⟨["r"], ".x", 1⟩, ⟨["s"], ".y", 3⟩] 1
              ".x").dropWhile
            (fun r => !decide (lookupFS [((["p"] : FPath), ([1] : Bytes)), (["q"], [1]),
              (["r"], [2])] r.full_path =
              lookupFS [((["p"] : FPath), ([1] : Bytes)), (["q"], [1]), (["r"], [2])]
                ["p"]))).take 1) ∧
      bucketRows [(⟨["q"], ".x", 1⟩ : File), ⟨["r"], ".x", 1⟩, ⟨["s"], ".y", 3⟩] 1 ".x" =
        [(⟨["q"], ".x", 1⟩ : File), ⟨["r"], ".x", 1⟩, ⟨["s"], ".y", 3⟩].filter
          (fun r => decide (r.size = 1 ∧ r.extension = ".x"))) := by
  refine ⟨rfl, by decide, ?_⟩
  have h := c4_find_match_first_byte_equal
    [((["p"] : FPath), ([1] : Bytes)), (["q"], [1]), (["r"], [2])]
    [(⟨["q"], ".x", 1⟩ : File), ⟨["r"], ".x", 1⟩, ⟨["s"], ".y", 3⟩] ["p"] 1 ".x" [1]
    rfl (by decide)
  exact ⟨h.1, h.2.1⟩

/-- The non-interactive directory gate on a known directory: it logs the
gate entry and either removes the directory (returning normally) or raises
`ENOTEMPTY`; no other exception escapes. -/
theorem removeDirWithConfirm_false (allItems : List WalkItem) (p : FPath) (st : RunState)
    (hf : (allItems.find? (fun it => decide (it.dirpath = p))).isSome = true) :
    (removeDirWithConfirm allItems false p st).2.gated = st.gated ++ [p] ∧
    ((removeDirWithConfirm allItems false p st).1 = .ok ∨
      (removeDirWithConfirm allItems false p st).1 = .notEmpty) := by
  obtain ⟨it, hit⟩ := Option.isSome_iff_exists.mp hf
  simp only [removeDirWithConfirm, rmdirModel, dirEmptyNow, hit, Option.map_some']
  cases hb : (it.files.isEmpty && it.dirnames.all fun n => decide (p ++ [n] ∈ st.removedDirs)) <;>
    simp

/-- C8: the second (retry) pruning pass, non-interactive, never aborts on a
still-non-empty directory — an `ENOTEMPTY` failure is swallowed and the pass
moves on — and it attempts every stacked directory exactly once, in pop
order (its structural recursion on the stack is also the termination
argument); only a non-`ENOTEMPTY` exception would propagate out.  The
hypothesis says each stacked path is a directory the pruning walk listed. -/
theorem c8_pass2_tolerates_notempty (allItems : List WalkItem) :
    ∀ (stack : List (FPath × FPath)) (st : RunState),
    (∀ pr ∈ stack, (allItems.find? (fun it => decide (it.dirpath = pr.1))).isSome = true) →
    exceptOk (prunePass2 allItems false stack st) ∧
    ExceptSat (prunePass2 allItems false stack st)
      (fun st' => st'.gated = st.gated ++ stack.map Prod.fst)
  | [], st, _ => by simp [prunePass2, exceptOk, ExceptSat]
  | e :: rest, st, hall => by
    have hf : (allItems.find? (fun it => decide (it.dirpath = e.1))).isSome = true :=
      hall e (by simp)
    have hgate := removeDirWithConfirm_false allItems e.1 st hf
    rcases hrm : removeDirWithConfirm allItems false e.1 st with ⟨o, st2⟩
    rw [hrm] at hgate
    rcases hgate with ⟨hg, ho | ho⟩ <;> subst ho
    · have ih := c8_pass2_tolerates_notempty allItems rest
        (statsUpd st2 e.2 (fun s => { s with empty_dir_count := s.empty_dir_count + 1 }))
        (fun pr hpr => hall pr (by simp [hpr]))
      simp only [prunePass2, hrm]
      refine ⟨ih.1, ?_⟩
      rcases hres : prunePass2 allItems false rest
          (statsUpd st2 e.2 (fun s => { s with empty_dir_count := s.empty_dir_count + 1 })) with
        h | st3
      · simp [ExceptSat]
      · have := ih.2
        rw [hres] at this
        simp only [ExceptSat] at this ⊢
        rw [this, statsUpd, hg]
        simp
    · have ih := c8_pass2_tolerates_notempty allItems rest st2
        (fun pr hpr => hall pr (by simp [hpr]))
      simp only [prunePass2, hrm]
      refine ⟨ih.1, ?_⟩
      rcases hres : prunePass2 allItems false rest st2 with h | st3
      · simp [ExceptSat]
      · have := ih.2
        rw [hres] at this
        simp only [ExceptSat] at this ⊢
        rw [this, hg]
        simp

/-- Witness for C8: a two-entry stack whose first pop (`["d"]`, still
holding the unremoved subdirectory `["d","s"]`) fails with `ENOTEMPTY` and
is skipped, after which the second pop (`["d","s"]`) is still attempted —
both directories pass through the gate, in pop order. -/
theorem c8_pass2_witness :
    (∀ pr ∈ [((["d"] : FPath), (["d"] : FPath)), (["d", "s"], ["d"])],
      (([⟨["d"], ["s"], []⟩, ⟨["d", "s"], [], []⟩] :
          List WalkItem).find? (fun it => decide (it.dirpath = pr.1))).isSome = true) ∧
    exceptOk (prunePass2 [⟨["d"], ["s"], []⟩, ⟨["d", "s"], [], []⟩] false
      [(["d"], ["d"]), (["d", "s"], ["d"])]
      { fs := [], db := [], stats := [], pending := [], gated := [], deletedFiles := [],
        removedDirs := [] }) ∧
    ExceptSat (prunePass2 [⟨["d"], ["s"], []⟩, ⟨["d", "s"], [], []⟩] false
      [(["d"], ["d"]), (["d", "s"], ["d"])]
      { fs := [], db := [], stats := [], pending := [], gated := [], deletedFiles := [],
        removedDirs := [] })
      (fun st' => st'.gated = [] ++ [(["d"], ["d"]), ((["d", "s"] : FPath), (["d"] : FPath))].map
        Prod.fst) := by
  refine ⟨by decide, ?_, ?_⟩
  · exact (c8_pass2_tolerates_notempty [⟨["d"], ["s"], []⟩, ⟨["d", "s"], [], []⟩]
      [(["d"], ["d"]), (["d", "s"], ["d"])] _ (by decide)).1
  · exact (c8_pass2_tolerates_notempty [⟨["d"], ["s"], []⟩, ⟨["d", "s"], [], []⟩]
      [(["d"], ["d"]), (["d", "s"], ["d"])] _ (by decide)).2

/-- Answering `n` at a file prompt is accepted immediately. -/
theorem promptLoop_no (r : List String) : promptLoop false ("n" :: r) = .ok (.no, r) := rfl

/-- Answering `y` at a file prompt is accepted immediately. -/
theorem promptLoop_yes (r : List String) : promptLoop false ("y" :: r) = .ok (.yes, r) := rfl

/-- Writing an existing key leaves the key list of the stats map unchanged. -/
theorem statsSet_keys (k : FPath) (v : DirStats) :
    ∀ m : StatsMap, k ∈ m.map Prod.fst → (statsSet m k v).map Prod.fst = m.map Prod.fst
  | [], hk => by simp at hk
  | e :: rest, hk => by
    by_cases he : e.1 = k
    · simp [statsSet, he]
    · have hk' : k ∈ rest.map Prod.fst := by
        rcases List.mem_map.mp hk with ⟨x, hx, hxk⟩
        rcases List.mem_cons.mp hx with hx | hx
        · exact absurd (hx ▸ hxk) he
        · exact List.mem_map.mpr ⟨x, hx, hxk⟩
      simp [statsSet, he, statsSet_keys k v rest hk']

/-- The interactive file gate on a declined deletion: the prompt line is
consumed and the gate entry logged, but the filesystem, catalog, stats and
deletion log are untouched and no skip is returned. -/
theorem removeFileWithConfirm_no (p : FPath) (st : RunState) (rest : List String)
    (hpend : st.pending = "n" :: rest) :
    removeFileWithConfirm true p st =
      .ok (none, { st with pending := rest, gated := st.gated ++ [p] }) := by
  simp only [removeFileWithConfirm, if_pos rfl]
  have hpl : promptLoop false ({ st with gated := st.gated ++ [p] } : RunState).pending =
      .ok (.no, rest) := by
    show promptLoop false st.pending = _
    rw [hpend, promptLoop_no]
  rw [hpl]
  simp

/-- The interactive file gate on a confirmed deletion of an existing file:
the prompt line is consumed, the gate entry logged, the file removed from
the filesystem and appended to the deletion log; no skip is returned. -/
theorem removeFileWithConfirm_yes (p : FPath) (st : RunState) (rest : List String)
    (hpend : st.pending = "y" :: rest) (hp : (lookupFS st.fs p).isSome = true) :
    removeFileWithConfirm true p st =
      .ok (none,
        { st with
            pending := rest,
            gated := st.gated ++ [p],
            fs := st.fs.filter (fun e => !decide (e.1 = p)),
            deletedFiles := st.deletedFiles ++ [p] }) := by
  simp only [removeFileWithConfirm, if_pos rfl]
  have hpl : promptLoop false ({ st with gated := st.gated ++ [p] } : RunState).pending =
      .ok (.yes, rest) := by
    show promptLoop false st.pending = _
    rw [hpend, promptLoop_yes]
  rw [hpl]
  simp only [removeFileFS]
  rw [if_pos hp]
  simp

/-- `statsUpd` touches only the stats field. -/
theorem statsUpd_fs (st : RunState) (k : FPath) (f : DirStats → DirStats) :
    (statsUpd st k f).fs = st.fs := rfl

/-- `statsUpd` touches only the stats field. -/
theorem statsUpd_db (st : RunState) (k : FPath) (f : DirStats → DirStats) :
    (statsUpd st k f).db = st.db := rfl

/-- `statsUpd` touches only the stats field. -/
theorem statsUpd_pending (st : RunState) (k : FPath) (f : DirStats → DirStats) :
    (statsUpd st k f).pending = st.pending := rfl

/-- `statsUpd` on an already-registered root keeps the set of registered
roots. -/
theorem statsUpd_keys (st : RunState) (k : FPath) (f : DirStats → DirStats)
    (hk : k ∈ st.stats.map Prod.fst) :
    (statsUpd st k f).stats.map Prod.fst = st.stats.map Prod.fst :=
  statsSet_keys k _ st.stats hk

/-- C9: on a read-only-walk match whose interactive confirmation is answered
`n`, the matched catalog row is removed from the catalog all the same —
`session.delete` runs after the gate regardless of the answer — while the
matched target file stays on disk (`fs` unchanged, nothing logged as
deleted) and no skip is raised.  The surviving file is then untracked, so no
later read-only file can match it. -/
theorem c9_declined_match_still_deleted_from_catalog (d root : FPath) (name : String)
    (st : RunState) (c : Bytes) (row : File) (cs : List File) (troot : FPath)
    (rest : List String)
    (hp : lookupFS st.fs (root ++ [name]) = some c)
    (hm : findMatch st.fs st.db (root ++ [name]) c.length (get_extension name) =
      .ok (some row, cs))
    (hd : d ∈ st.stats.map Prod.fst)
    (htr : target_file_dir (st.stats.map Prod.fst) row.full_path = .ok troot)
    (hpend : st.pending = "n" :: rest)
    (hnd : st.db.Nodup) :
    exceptOk (processFile ⟨true, false⟩ d root name st) ∧
    ExceptSat (processFile ⟨true, false⟩ d root name st) (fun out =>
      out.1 = none ∧ out.2.fs = st.fs ∧ out.2.db = st.db.erase row ∧ row ∉ out.2.db ∧
      out.2.deletedFiles = st.deletedFiles) := by
  have hkeys : (statsUpd st d (fun s =>
      { s with total_file_count := s.total_file_count + 1,
               total_file_size := s.total_file_size + c.length })).stats.map Prod.fst =
      st.stats.map Prod.fst := statsUpd_keys st d _ hd
  have hres : processFile ⟨true, false⟩ d root name st =
      .ok (none,
        { statsUpd (statsUpd st d (fun s =>
            { s with total_file_count := s.total_file_count + 1,
                     total_file_size := s.total_file_size + c.length })) troot (fun s =>
            { s with dup_file_count := s.dup_file_count + 1,
                     dup_file_size := s.dup_file_size + c.length }) with
          pending := rest,
          gated := st.gated ++ [row.full_path],
          db := st.db.erase row }) := by
    simp only [processFile, hp]
    rw [show (statsUpd st d (fun s =>
      { s with total_file_count := s.total_file_count + 1,
               total_file_size := s.total_file_size + c.length })).fs = st.fs from rfl]
    rw [show (statsUpd st d (fun s =>
      { s with total_file_count := s.total_file_count + 1,
               total_file_size := s.total_file_size + c.length })).db = st.db from rfl]
    simp only [hm]
    rw [if_neg (show ¬((false : Bool) = true) by decide)]
    simp only [hkeys, htr]
    rw [removeFileWithConfirm_no row.full_path _ rest (by rw [statsUpd_pending,
      statsUpd_pending, hpend])]
    rfl
  rw [hres]
  refine ⟨trivial, rfl, rfl, rfl, ?_, rfl⟩
  intro hmem
  exact ((hnd.mem_erase_iff).mp hmem).1 rfl

/-- Witness for C9 at `roStepState`: the declined read-only match against
catalog row `t/a` leaves the disk unchanged but empties the catalog. -/
theorem c9_witness :
    lookupFS roStepState.fs (["r"] ++ ["b"]) = some [1] ∧
    findMatch roStepState.fs roStepState.db (["r"] ++ ["b"]) (List.length [(1 : Nat)])
      (get_extension "b") = .ok (some ⟨["t", "a"], "", 1⟩, [⟨["t", "a"], "", 1⟩]) ∧
    ["r"] ∈ roStepState.stats.map Prod.fst ∧
    target_file_dir (roStepState.stats.map Prod.fst) (["t", "a"] : FPath) = .ok ["t"] ∧
    roStepState.pending = ["n"] ∧ roStepState.db.Nodup ∧
    (exceptOk (processFile ⟨true, false⟩ ["r"] ["r"] "b" roStepState) ∧
      ExceptSat (processFile ⟨true, false⟩ ["r"] ["r"] "b" roStepState) (fun out =>
        out.1 = none ∧ out.2.fs = roStepState.fs ∧
        out.2.db = roStepState.db.erase ⟨["t", "a"], "", 1⟩ ∧
        (⟨["t", "a"], "", 1⟩ : File) ∉ out.2.db ∧
        out.2.deletedFiles = roStepState.deletedFiles)) := by
  refine ⟨by decide, by decide, by decide, by decide, rfl, by decide, ?_⟩
  exact c9_declined_match_still_deleted_from_catalog ["r"] ["r"] "b" roStepState [1]
    ⟨["t", "a"], "", 1⟩ [⟨["t", "a"], "", 1⟩] ["t"] [] (by decide) (by decide) (by decide)
    (by decide) rfl (by decide)

/-- Reading the key just written returns the written value. -/
theorem statsGetD_statsSet_self (k : FPath) (v : DirStats) :
    ∀ m : StatsMap, statsGetD (statsSet m k v) k = v
  | [] => by simp [statsSet, statsGetD]
  | e :: rest => by
    by_cases he : e.1 = k
    · simp [statsSet, statsGetD, he]
    · simp [statsSet, statsGetD, he, statsGetD_statsSet_self k v rest]

/-- Writing one key leaves reads of any other key unchanged. -/
theorem statsGetD_statsSet_ne (k k' : FPath) (v : DirStats) (hne : k' ≠ k) :
    ∀ m : StatsMap, statsGetD (statsSet m k v) k' = statsGetD m k'
  | [] => by
    have hkk' : ¬ (k = k') := fun h => hne h.symm
    simp only [statsSet, statsGetD, if_neg hkk']
  | e :: rest => by
    by_cases he : e.1 = k
    · have hkk' : ¬ (k = k') := fun h => hne h.symm
      have hek' : ¬ (e.1 = k') := by rw [he]; exact hkk'
      simp only [statsSet, statsGetD, if_pos he, if_neg hkk', if_neg hek']
    · simp only [statsSet, statsGetD, if_neg he]
      by_cases he' : e.1 = k'
      · simp [he']
      · simp [he', statsGetD_statsSet_ne k k' v hne rest]

/-- A row returned by the row loop belongs to the scanned rows and its file
is on disk. -/
theorem findMatchAux_some_mem (fs : FS) (p : FPath) :
    ∀ (rows : List File) (m : File) (cs : List File),
    findMatchAux fs p rows = .ok (some m, cs) →
    (lookupFS fs m.full_path).isSome = true ∧ m ∈ rows
  | [], m, cs => by simp [findMatchAux]
  | r :: rest, m, cs => by
    intro h
    simp only [findMatchAux] at h
    rcases hc : cmpFiles fs p r.full_path with _ | b
    · rw [hc] at h; cases h
    · rcases b with _ | _
      · rw [hc] at h
        rcases hrec : findMatchAux fs p rest with herr | ⟨m', cs'⟩
        · rw [hrec] at h; cases h
        · rw [hrec] at h
          have hinj := Except.ok.inj h
          have hm' : m' = some m := congrArg Prod.fst hinj
          have ih := findMatchAux_some_mem fs p rest m cs'
          rw [hrec, hm'] at ih
          have := ih rfl
          exact ⟨this.1, List.mem_cons_of_mem r this.2⟩
      · rw [hc] at h
        have hinj := Except.ok.inj h
        have hm : some r = some m := congrArg Prod.fst hinj
        have hrm : r = m := Option.some.inj hm
        subst hrm
        simp only [cmpFiles] at hc
        rcases hq : lookupFS fs r.full_path with _ | b'
        · rw [hq] at hc
          rcases lookupFS fs p with _ | a' <;> simp at hc
        · exact ⟨rfl, List.mem_cons_self r rest⟩

/-- Target-walk step on a detected duplicate: the current root's duplicate
counters are bumped whether the interactive answer is `y` or `n`, and on `n`
the file stays on disk. -/
theorem dupCounters_target_step (d root : FPath) (name : String) (st : RunState) (c : Bytes)
    (row : File) (cs : List File) (a : String) (rest : List String)
    (hp : lookupFS st.fs (root ++ [name]) = some c)
    (hm : findMatch st.fs st.db (root ++ [name]) c.length (get_extension name) =
      .ok (some row, cs))
    (ha : a = "y" ∨ a = "n") (hpend : st.pending = a :: rest) :
    exceptOk (processFile ⟨true, true⟩ d root name st) ∧
    ExceptSat (processFile ⟨true, true⟩ d root name st) (fun out =>
      (statsGetD out.2.stats d).dup_file_count = (statsGetD st.stats d).dup_file_count + 1 ∧
      (statsGetD out.2.stats d).dup_file_size = (statsGetD st.stats d).dup_file_size + c.length ∧
      (a = "n" → out.2.fs = st.fs)) := by
  rcases ha with ha | ha <;> subst ha
  · have hpend2 : (statsUpd (statsUpd st d (fun s =>
        { s with total_file_count := s.total_file_count + 1,
                 total_file_size := s.total_file_size + c.length })) d (fun s =>
        { s with dup_file_count := s.dup_file_count + 1,
                 dup_file_size := s.dup_file_size + c.length })).pending = "y" :: rest := by
      rw [statsUpd_pending, statsUpd_pending, hpend]
    have hsome : (lookupFS (statsUpd (statsUpd st d (fun s =>
        { s with total_file_count := s.total_file_count + 1,
                 total_file_size := s.total_file_size + c.length })) d (fun s =>
        { s with dup_file_count := s.dup_file_count + 1,
                 dup_file_size := s.dup_file_size + c.length })).fs (root ++ [name])).isSome
        = true := by
      rw [statsUpd_fs, statsUpd_fs, hp]; rfl
    simp only [processFile, hp]
    rw [show (statsUpd st d (fun s =>
      { s with total_file_count := s.total_file_count + 1,
               total_file_size := s.total_file_size + c.length })).fs = st.fs from rfl]
    rw [show (statsUpd st d (fun s =>
      { s with total_file_count := s.total_file_count + 1,
               total_file_size := s.total_file_size + c.length })).db = st.db from rfl]
    simp only [hm]
    rw [if_pos trivial]
    rw [removeFileWithConfirm_yes (root ++ [name]) _ rest hpend2 hsome]
    refine ⟨trivial, ?_, ?_, ?_⟩
    · simp only [statsUpd, statsGetD_statsSet_self]
    · simp only [statsUpd, statsGetD_statsSet_self]
    · intro h
      exact absurd h (by decide)
  · have hpend2 : (statsUpd (statsUpd st d (fun s =>
        { s with total_file_count := s.total_file_count + 1,
                 total_file_size := s.total_file_size + c.length })) d (fun s =>
        { s with dup_file_count := s.dup_file_count + 1,
                 dup_file_size := s.dup_file_size + c.length })).pending = "n" :: rest := by
      rw [statsUpd_pending, statsUpd_pending, hpend]
    simp only [processFile, hp]
    rw [show (statsUpd st d (fun s =>
      { s with total_file_count := s.total_file_count + 1,
               total_file_size := s.total_file_size + c.length })).fs = st.fs from rfl]
    rw [show (statsUpd st d (fun s =>
      { s with total_file_count := s.total_file_count + 1,
               total_file_size := s.total_file_size + c.length })).db = st.db from rfl]
    simp only [hm]
    rw [if_pos trivial]
    rw [removeFileWithConfirm_no (root ++ [name]) _ rest hpend2]
    refine ⟨trivial, ?_, ?_, ?_⟩
    · simp only [statsUpd, statsGetD_statsSet_self]
    · simp only [statsUpd, statsGetD_statsSet_self]
    · intro _
      rfl

/-- Read-only-walk step on a detected duplicate: the duplicate counters of
the attributed target root (found by `target_file_dir`) are bumped whether
the interactive answer is `y` or `n`, and on `n` the file stays on disk. -/
theorem dupCounters_readonly_step (d root : FPath) (name : String) (st : RunState) (c : Bytes)
    (row : File) (cs : List File) (troot : FPath) (a : String) (rest : List String)
    (hp : lookupFS st.fs (root ++ [name]) = some c)
    (hm : findMatch st.fs st.db (root ++ [name]) c.length (get_extension name) =
      .ok (some row, cs))
    (hd : d ∈ st.stats.map Prod.fst)
    (htr : target_file_dir (st.stats.map Prod.fst) row.full_path = .ok troot)
    (ha : a = "y" ∨ a = "n") (hpend : st.pending = a :: rest) :
    exceptOk (processFile ⟨true, false⟩ d root name st) ∧
    ExceptSat (processFile ⟨true, false⟩ d root name st) (fun out =>
      (statsGetD out.2.stats troot).dup_file_count =
        (statsGetD st.stats troot).dup_file_count + 1 ∧
      (statsGetD out.2.stats troot).dup_file_size =
        (statsGetD st.stats troot).dup_file_size + c.length ∧
      (a = "n" → out.2.fs = st.fs)) := by
  have hkeys : (statsUpd st d (fun s =>
      { s with total_file_count := s.total_file_count + 1,
               total_file_size := s.total_file_size + c.length })).stats.map Prod.fst =
      st.stats.map Prod.fst := statsUpd_keys st d _ hd
  have hrowfs : (lookupFS st.fs row.full_path).isSome = true :=
    (findMatchAux_some_mem st.fs (root ++ [name]) _ row cs hm).1
  have hcnt : (statsGetD (statsUpd st d (fun s =>
      { s with total_file_count := s.total_file_count + 1,
               total_file_size := s.total_file_size + c.length })).stats troot).dup_file_count =
      (statsGetD st.stats troot).dup_file_count := by
    by_cases hdt : troot = d
    · subst hdt; simp only [statsUpd, statsGetD_statsSet_self]
    · simp only [statsUpd, statsGetD_statsSet_ne d troot _ hdt]
  have hsz : (statsGetD (statsUpd st d (fun s =>
      { s with total_file_count := s.total_file_count + 1,
               total_file_size := s.total_file_size + c.length })).stats troot).dup_file_size =
      (statsGetD st.stats troot).dup_file_size := by
    by_cases hdt : troot = d
    · subst hdt; simp only [statsUpd, statsGetD_statsSet_self]
    · simp only [statsUpd, statsGetD_statsSet_ne d troot _ hdt]
  rcases ha with ha | ha <;> subst ha
  · have hpend2 : (statsUpd (statsUpd st d (fun s =>
        { s with total_file_count := s.total_file_count + 1,
                 total_file_size := s.total_file_size + c.length })) troot (fun s =>
        { s with dup_file_count := s.dup_file_count + 1,
                 dup_file_size := s.dup_file_size + c.length })).pending = "y" :: rest := by
      rw [statsUpd_pending, statsUpd_pending, hpend]
    have hsome : (lookupFS (statsUpd (statsUpd st d (fun s =>
        { s with total_file_count := s.total_file_count + 1,
                 total_file_size := s.total_file_size + c.length })) troot (fun s =>
        { s with dup_file_count := s.dup_file_count + 1,
                 dup_file_size := s.dup_file_size + c.length })).fs row.full_path).isSome
        = true := by
      rw [statsUpd_fs, statsUpd_fs]; exact hrowfs
    simp only [processFile, hp]
    rw [show (statsUpd st d (fun s =>
      { s with total_file_count := s.total_file_count + 1,
               total_file_size := s.total_file_size + c.length })).fs = st.fs from rfl]
    rw [show (statsUpd st d (fun s =>
      { s with total_file_count := s.total_file_count + 1,
               total_file_size := s.total_file_size + c.length })).db = st.db from rfl]
    simp only [hm]
    rw [if_neg (show ¬((false : Bool) = true) by decide)]
    simp only [hkeys, htr]
    rw [removeFileWithConfirm_yes row.full_path _ rest hpend2 hsome]
    refine ⟨trivial, ?_, ?_, ?_⟩
    · simp only [statsUpd, statsGetD_statsSet_self]
      simp only [statsUpd] at hcnt
      rw [hcnt]
    · simp only [statsUpd, statsGetD_statsSet_self]
      simp only [statsUpd] at hsz
      rw [hsz]
    · intro h
      exact absurd h (by decide)
  · have hpend2 : (statsUpd (statsUpd st d (fun s =>
        { s with total_file_count := s.total_file_count + 1,
                 total_file_size := s.total_file_size + c.length })) troot (fun s =>
        { s with dup_file_count := s.dup_file_count + 1,
                 dup_file_size := s.dup_file_size + c.length })).pending = "n" :: rest := by
      rw [statsUpd_pending, statsUpd_pending, hpend]
    simp only [processFile, hp]
    rw [show (statsUpd st d (fun s =>
      { s with total_file_count := s.total_file_count + 1,
               total_file_size := s.total_file_size + c.length })).fs = st.fs from rfl]
    rw [show (statsUpd st d (fun s =>
      { s with total_file_count := s.total_file_count + 1,
               total_file_size := s.total_file_size + c.length })).db = st.db from rfl]
    simp only [hm]
    rw [if_neg (show ¬((false : Bool) = true) by decide)]
    simp only [hkeys, htr]
    rw [removeFileWithConfirm_no row.full_path _ rest hpend2]
    refine ⟨trivial, ?_, ?_, ?_⟩
    · simp only [statsUpd, statsGetD_statsSet_self]
      simp only [statsUpd] at hcnt
      rw [hcnt]
    · simp only [statsUpd, statsGetD_statsSet_self]
      simp only [statsUpd] at hsz
      rw [hsz]
    · intro _
      rfl

/-- C10: whenever a duplicate is detected, the duplicate counters of the
attributed root — the current target root on the target walk, the owning
target root found by `target_file_dir` on the read-only walk — are
incremented before the confirmation gate runs: they end up bumped by one
file and by the file's size whether the interactive answer is `y` or `n`,
and on `n` the file remains on disk. -/
theorem c10_dup_counters_incremented_before_gate :
    (∀ (d root : FPath) (name : String) (st : RunState) (c : Bytes) (row : File)
        (cs : List File) (a : String) (rest : List String),
      lookupFS st.fs (root ++ [name]) = some c →
      findMatch st.fs st.db (root ++ [name]) c.length (get_extension name) =
        .ok (some row, cs) →
      (a = "y" ∨ a = "n") → st.pending = a :: rest →
      exceptOk (processFile ⟨true, true⟩ d root name st) ∧
      ExceptSat (processFile ⟨true, true⟩ d root name st) (fun out =>
        (statsGetD out.2.stats d).dup_file_count =
          (statsGetD st.stats d).dup_file_count + 1 ∧
        (statsGetD out.2.stats d).dup_file_size =
          (statsGetD st.stats d).dup_file_size + c.length ∧
        (a = "n" → out.2.fs = st.fs))) ∧
    (∀ (d root : FPath) (name : String) (st : RunState) (c : Bytes) (row : File)
        (cs : List File) (troot : FPath) (a : String) (rest : List String),
      lookupFS st.fs (root ++ [name]) = some c →
      findMatch st.fs st.db (root ++ [name]) c.length (get_extension name) =
        .ok (some row, cs) →
      d ∈ st.stats.map Prod.fst →
      target_file_dir (st.stats.map Prod.fst) row.full_path = .ok troot →
      (a = "y" ∨ a = "n") → st.pending = a :: rest →
      exceptOk (processFile ⟨true, false⟩ d root name st) ∧
      ExceptSat (processFile ⟨true, false⟩ d root name st) (fun out =>
        (statsGetD out.2.stats troot).dup_file_count =
          (statsGetD st.stats troot).dup_file_count + 1 ∧
        (statsGetD out.2.stats troot).dup_file_size =
          (statsGetD st.stats troot).dup_file_size + c.length ∧
        (a = "n" → out.2.fs = st.fs))) :=
  ⟨fun d root name st c row cs a rest hp hm ha hpend =>
    dupCounters_target_step d root name st c row cs a rest hp hm ha hpend,
  fun d root name st c row cs troot a rest hp hm hd htr ha hpend =>
    dupCounters_readonly_step d root name st c row cs troot a rest hp hm hd htr ha hpend⟩

/-- Witness for C10 at `targetStepState` and `roStep2State`: both declined
matches bump the attributed root's duplicate counters while the file stays
on disk. -/
theorem c10_witness :
    (lookupFS targetStepState.fs (["t"] ++ ["b"]) = some [1] ∧
      findMatch targetStepState.fs targetStepState.db (["t"] ++ ["b"])
        (List.length [(1 : Nat)]) (get_extension "b") =
        .ok (some ⟨["t", "a"], "", 1⟩, [⟨["t", "a"], "", 1⟩]) ∧
      ("n" = "y" ∨ "n" = "n") ∧ targetStepState.pending = "n" :: [] ∧
      (exceptOk (processFile ⟨true, true⟩ ["t"] ["t"] "b" targetStepState) ∧
        ExceptSat (processFile ⟨true, true⟩ ["t"] ["t"] "b" targetStepState) (fun out =>
          (statsGetD out.2.stats ["t"]).dup_file_count =
            (statsGetD targetStepState.stats ["t"]).dup_file_count + 1 ∧
          (statsGetD out.2.stats ["t"]).dup_file_size =
            (statsGetD targetStepState.stats ["t"]).dup_file_size +
              (List.length [(1 : Nat)]) ∧
          ("n" = "n" → out.2.fs = targetStepState.fs)))) ∧
    (lookupFS roStep2State.fs (["r"] ++ ["b"]) = some [1] ∧
      findMatch roStep2State.fs roStep2State.db (["r"] ++ ["b"])
        (List.length [(1 : Nat)]) (get_extension "b") =
        .ok (some ⟨["t", "a"], "", 1⟩, [⟨["t", "a"], "", 1⟩]) ∧
      ["r"] ∈ roStep2State.stats.map Prod.fst ∧
      target_file_dir (roStep2State.stats.map Prod.fst) (["t", "a"] : FPath) = .ok ["t"] ∧
      roStep2State.pending = "n" :: [] ∧
      (exceptOk (processFile ⟨true, false⟩ ["r"] ["r"] "b" roStep2State) ∧
        ExceptSat (processFile ⟨true, false⟩ ["r"] ["r"] "b" roStep2State) (fun out =>
          (statsGetD out.2.stats ["t"]).dup_file_count =
            (statsGetD roStep2State.stats ["t"]).dup_file_count + 1 ∧
          (statsGetD out.2.stats ["t"]).dup_file_size =
            (statsGetD roStep2State.stats ["t"]).dup_file_size +
              (List.length [(1 : Nat)]) ∧
          ("n" = "n" → out.2.fs = roStep2State.fs)))) := by
  refine ⟨⟨by decide, by decide, Or.inr rfl, rfl, ?_⟩, ⟨by decide, by decide, by decide,
    by decide, rfl, ?_⟩⟩
  · exact c10_dup_counters_incremented_before_gate.1 ["t"] ["t"] "b" targetStepState [1]
      ⟨["t", "a"], "", 1⟩ [⟨["t", "a"], "", 1⟩] "n" [] (by decide) (by decide) (Or.inr rfl) rfl
  · exact c10_dup_counters_incremented_before_gate.2 ["r"] ["r"] "b" roStep2State [1]
      ⟨["t", "a"], "", 1⟩ [⟨["t", "a"], "", 1⟩] ["t"] "n" [] (by decide) (by decide) (by decide)
      (by decide) (Or.inr rfl) rfl

/-- Deleting one file leaves lookups of any other path unchanged. -/
theorem lookupFS_filter_ne (p q : FPath) (hne : q ≠ p) :
    ∀ fs : FS, lookupFS (fs.filter (fun e => !decide (e.1 = p))) q = lookupFS fs q
  | [] => rfl
  | e :: rest => by
    have hpq : ¬ (p = q) := fun h => hne h.symm
    by_cases hep : e.1 = p
    · simp [List.filter_cons, hep, lookupFS, hpq, lookupFS_filter_ne p q hne rest]
    · by_cases heq : e.1 = q
      · simp [List.filter_cons, hep, lookupFS, heq, hne]
      · simp [List.filter_cons, hep, lookupFS, heq, hne, lookupFS_filter_ne p q hne rest]

/-- When the row loop finds no match, no scanned row is byte-identical to
the candidate. -/
theorem findMatchAux_none (fs : FS) (p : FPath) :
    ∀ (rows : List File) (cs : List File), findMatchAux fs p rows = .ok (none, cs) →
    ∀ r ∈ rows, lookupFS fs r.full_path ≠ lookupFS fs p
  | [], cs => by simp
  | r :: rest, cs => by
    intro h r' hr'
    simp only [findMatchAux] at h
    rcases hc : cmpFiles fs p r.full_path with _ | b
    · rw [hc] at h; cases h
    · rcases b with _ | _
      · rw [hc] at h
        rcases hrec : findMatchAux fs p rest with herr | ⟨m', cs'⟩
        · rw [hrec] at h; cases h
        · rw [hrec] at h
          have hm' : m' = none := congrArg Prod.fst (Except.ok.inj h)
          rcases List.mem_cons.mp hr' with hr' | hr'
          · subst hr'
            simp only [cmpFiles] at hc
            rcases ha : lookupFS fs p with _ | a
            · rw [ha] at hc
              exact Option.noConfusion hc
            · rcases hb : lookupFS fs r'.full_path with _ | b'
              · rw [ha, hb] at hc
                exact Option.noConfusion hc
              · rw [ha, hb] at hc
                have hab : ¬ (a = b') := of_decide_eq_false (Option.some.inj hc)
                intro hcon
                exact hab (Option.some.inj hcon).symm
          · have ih := findMatchAux_none fs p rest cs'
            rw [hrec, hm'] at ih
            exact ih rfl r' hr'
      · rw [hc] at h; cases h

/-- Whatever the file gate does, it leaves the catalog and the stats alone,
and the filesystem either untouched or with exactly the gated file
removed. -/
theorem removeFileWithConfirm_shape (cb : Bool) (p : FPath) (st : RunState)
    (sk : Option FPath) (st' : RunState)
    (h : removeFileWithConfirm cb p st = .ok (sk, st')) :
    st'.db = st.db ∧ st'.stats = st.stats ∧
    (st'.fs = st.fs ∨ st'.fs = st.fs.filter (fun e => !decide (e.1 = p))) := by
  simp only [removeFileWithConfirm] at h
  cases cb with
  | false =>
    rw [if_neg (by decide : ¬((false : Bool) = true))] at h
    rcases hrm : removeFileFS ({ st with gated := st.gated ++ [p] } : RunState).fs p with
      _ | fs'
    · rw [hrm] at h; cases h
    · rw [hrm] at h
      have hst' := (Prod.mk.injEq _ _ _ _).mp (Except.ok.inj h)
      rw [← hst'.2]
      simp only [removeFileFS] at hrm
      by_cases hs : (lookupFS ({ st with gated := st.gated ++ [p] } : RunState).fs p).isSome
        = true
      · rw [if_pos hs] at hrm
        have hfs' : fs' = st.fs.filter (fun e => !decide (e.1 = p)) :=
          (Option.some.inj hrm).symm
        exact ⟨rfl, rfl, Or.inr hfs'⟩
      · rw [if_neg hs] at hrm; cases hrm
  | true =>
    rw [if_pos rfl] at h
    rcases hpl : promptLoop false ({ st with gated := st.gated ++ [p] } : RunState).pending with
      herr | ⟨ans, rest⟩
    · rw [hpl] at h; cases h
    · rw [hpl] at h
      cases ans with
      | skip =>
        have hst' := (Prod.mk.injEq _ _ _ _).mp (Except.ok.inj h)
        rw [← hst'.2]
        exact ⟨rfl, rfl, Or.inl rfl⟩
      | no =>
        have hst' := (Prod.mk.injEq _ _ _ _).mp (Except.ok.inj h)
        rw [← hst'.2]
        exact ⟨rfl, rfl, Or.inl rfl⟩
      | yes =>
        rcases hrm : removeFileFS ({ st with gated := st.gated ++ [p] } : RunState).fs p with
          _ | fs'
        · rw [hrm] at h; cases h
        · rw [hrm] at h
          have hst' := (Prod.mk.injEq _ _ _ _).mp (Except.ok.inj h)
          rw [← hst'.2]
          simp only [removeFileFS] at hrm
          by_cases hs : (lookupFS ({ st with gated := st.gated ++ [p] } : RunState).fs p).isSome
            = true
          · rw [if_pos hs] at hrm
            have hfs' : fs' = st.fs.filter (fun e => !decide (e.1 = p)) :=
              (Option.some.inj hrm).symm
            exact ⟨rfl, rfl, Or.inr hfs'⟩
          · rw [if_neg hs] at hrm; cases hrm

/-- One target-walk file step preserves the catalog invariant, provided the
file was not already catalogued; the catalog grows by at most the current
file. -/
theorem processFile_catalog (cb : Bool) (d root : FPath) (name : String) (st : RunState)
    (sk : Option FPath) (st' : RunState)
    (hrun : processFile ⟨cb, true⟩ d root name st = .ok (sk, st'))
    (hinv : CatalogInv st)
    (hnew : (root ++ [name]) ∉ st.db.map File.full_path) :
    CatalogInv st' ∧ ∀ r ∈ st'.db, r ∈ st.db ∨ r.full_path = root ++ [name] := by
  rcases hl : lookupFS st.fs (root ++ [name]) with _ | c
  · simp only [processFile, hl] at hrun
    exact Except.noConfusion hrun
  · simp only [processFile, hl] at hrun
    rw [show (statsUpd st d (fun s =>
      { s with total_file_count := s.total_file_count + 1,
               total_file_size := s.total_file_size + c.length })).fs = st.fs from rfl] at hrun
    rw [show (statsUpd st d (fun s =>
      { s with total_file_count := s.total_file_count + 1,
               total_file_size := s.total_file_size + c.length })).db = st.db from rfl] at hrun
    rcases hfm : findMatch st.fs st.db (root ++ [name]) c.length (get_extension name) with
      herr | ⟨_ | row, cs⟩
    · rw [hfm] at hrun
      exact Except.noConfusion hrun
    · simp only [hfm] at hrun
      rw [if_pos trivial] at hrun
      have hpair := (Prod.mk.injEq _ _ _ _).mp (Except.ok.inj hrun)
      rw [← hpair.2]
      have hmatchnone : ∀ r ∈ bucketRows st.db c.length (get_extension name),
          lookupFS st.fs r.full_path ≠ lookupFS st.fs (root ++ [name]) :=
        findMatchAux_none st.fs (root ++ [name]) _ cs hfm
      refine ⟨⟨?_, ?_⟩, ?_⟩
      · intro r hr
        rcases List.mem_append.mp hr with hr | hr
        · exact hinv.1 r hr
        · rcases List.mem_singleton.mp hr with rfl
          exact ⟨c, hl, rfl⟩
      · rw [List.pairwise_append]
        refine ⟨hinv.2, List.pairwise_singleton _ _, ?_⟩
        intro r1 hr1 r2 hr2 hext
        rcases List.mem_singleton.mp hr2 with rfl
        by_cases hsz : r1.size = c.length
        · have hbkt : r1 ∈ bucketRows st.db c.length (get_extension name) := by
            rw [bucketRows, List.mem_filter]
            exact ⟨hr1, by simp [hsz, hext]⟩
          exact hmatchnone r1 hbkt
        · obtain ⟨b, hb, hlen⟩ := hinv.1 r1 hr1
          rw [hb, hl]
          intro hcon
          have hbc : b = c := Option.some.inj hcon
          rw [hbc] at hlen
          exact hsz (hlen ▸ rfl)
      · intro r hr
        rcases List.mem_append.mp hr with hr | hr
        · exact Or.inl hr
        · exact Or.inr (by rcases List.mem_singleton.mp hr with rfl; rfl)
    · simp only [hfm] at hrun
      rw [if_pos trivial] at hrun
      obtain ⟨hdb, hstats, hfs⟩ := removeFileWithConfirm_shape cb (root ++ [name]) _ sk st' hrun
      have hdb' : st'.db = st.db := hdb
      have hlk : ∀ q : FPath, q ≠ root ++ [name] → lookupFS st'.fs q = lookupFS st.fs q := by
        rcases hfs with hfs | hfs
        · intro q _
          rw [hfs]
          rfl
        · intro q hq
          rw [hfs]
          exact lookupFS_filter_ne (root ++ [name]) q hq st.fs
      have hne : ∀ r ∈ st.db, r.full_path ≠ root ++ [name] := by
        intro r hr h
        exact hnew (List.mem_map.mpr ⟨r, hr, h⟩)
      refine ⟨⟨?_, ?_⟩, ?_⟩
      · intro r hr
        rw [hdb'] at hr
        obtain ⟨b, hb, hlen⟩ := hinv.1 r hr
        exact ⟨b, by rw [hlk r.full_path (hne r hr)]; exact hb, hlen⟩
      · rw [hdb']
        refine List.Pairwise.imp_of_mem ?_ hinv.2
        intro r1 r2 hr1 hr2 himp hext
        rw [hlk r1.full_path (hne r1 hr1), hlk r2.full_path (hne r2 hr2)]
        exact himp hext
      · intro r hr
        rw [hdb'] at hr
        exact Or.inl hr

/-- The file loop of one directory preserves the catalog invariant when the
listed files are fresh: none is already catalogued and no path repeats; the
catalog grows only by listed paths. -/
theorem processFiles_catalog (cb : Bool) (d root : FPath) :
    ∀ (names : List String) (st : RunState) (sk : Option FPath) (st' : RunState),
    processFiles ⟨cb, true⟩ d root names st = .ok (sk, st') →
    CatalogInv st →
    (names.map (fun n => root ++ [n])).Nodup →
    (∀ r ∈ st.db, r.full_path ∉ names.map (fun n => root ++ [n])) →
    CatalogInv st' ∧
      ∀ r ∈ st'.db, r ∈ st.db ∨ r.full_path ∈ names.map (fun n => root ++ [n])
  | [], st, sk, st' => by
    intro h hinv _ _
    simp only [processFiles] at h
    have hpair := (Prod.mk.injEq _ _ _ _).mp (Except.ok.inj h)
    rw [← hpair.2]
    exact ⟨hinv, fun r hr => Or.inl hr⟩
  | n :: rest, st, sk, st' => by
    intro h hinv hnd hdb
    simp only [processFiles] at h
    have hnd' : (rest.map (fun n => root ++ [n])).Nodup := (List.nodup_cons.mp hnd).2
    have hhead : (root ++ [n]) ∉ rest.map (fun n => root ++ [n]) := (List.nodup_cons.mp hnd).1
    rcases hpf : processFile ⟨cb, true⟩ d root n st with herr | ⟨_ | skv, st1⟩
    · rw [hpf] at h
      exact Except.noConfusion h
    · simp only [hpf] at h
      have hnew : (root ++ [n]) ∉ st.db.map File.full_path := by
        intro hmem
        rcases List.mem_map.mp hmem with ⟨r, hr, hrp⟩
        exact hdb r hr (by rw [List.map_cons, hrp]; exact List.mem_cons_self _ _)
      obtain ⟨hinv1, hgrow1⟩ := processFile_catalog cb d root n st none st1 hpf hinv hnew
      have hdb1 : ∀ r ∈ st1.db, r.full_path ∉ rest.map (fun n => root ++ [n]) := by
        intro r hr
        rcases hgrow1 r hr with hr0 | hrp
        · intro hmem
          exact hdb r hr0 (List.mem_cons_of_mem _ hmem)
        · rw [hrp]
          exact hhead
      obtain ⟨hinv', hgrow'⟩ := processFiles_catalog cb d root rest st1 sk st' h hinv1 hnd' hdb1
      refine ⟨hinv', ?_⟩
      intro r hr
      rcases hgrow' r hr with hr1 | hrp
      · rcases hgrow1 r hr1 with h0 | hp
        · exact Or.inl h0
        · exact Or.inr (by rw [hp]; exact List.mem_cons_self _ _)
      · exact Or.inr (List.mem_cons_of_mem _ hrp)
    · simp only [hpf] at h
      have hnew : (root ++ [n]) ∉ st.db.map File.full_path := by
        intro hmem
        rcases List.mem_map.mp hmem with ⟨r, hr, hrp⟩
        exact hdb r hr (by rw [List.map_cons, hrp]; exact List.mem_cons_self _ _)
      obtain ⟨hinv1, hgrow1⟩ := processFile_catalog cb d root n st (some skv) st1 hpf hinv hnew
      have hpair := (Prod.mk.injEq _ _ _ _).mp (Except.ok.inj h)
      rw [← hpair.2]
      refine ⟨hinv1, ?_⟩
      intro r hr
      rcases hgrow1 r hr with h0 | hp
      · exact Or.inl h0
      · exact Or.inr (by rw [hp]; exact List.mem_cons_self _ _)

/-- The walk of one root's listings preserves the catalog invariant when no
file path repeats across the walk and none is already catalogued; the
catalog grows only by walked paths. -/
theorem processItems_catalog (cb : Bool) (d : FPath) :
    ∀ (items : List WalkItem) (skip : Option FPath) (st : RunState) (st' : RunState),
    processItems ⟨cb, true⟩ d items skip st = .ok st' →
    CatalogInv st →
    (itemsFilePaths items).Nodup →
    (∀ r ∈ st.db, r.full_path ∉ itemsFilePaths items) →
    CatalogInv st' ∧ ∀ r ∈ st'.db, r ∈ st.db ∨ r.full_path ∈ itemsFilePaths items
  | [], skip, st, st' => by
    intro h hinv _ _
    simp only [processItems] at h
    rw [← Except.ok.inj h]
    exact ⟨hinv, fun r hr => Or.inl hr⟩
  | it :: rest, skip, st, st' => by
    intro h hinv hnd hdb
    have hsplit : itemsFilePaths (it :: rest) = itemFilePaths it ++ itemsFilePaths rest := by
      simp [itemsFilePaths]
    rw [hsplit] at hnd hdb
    obtain ⟨hnd1, hnd2, hdisj⟩ := List.nodup_append.mp hnd
    simp only [processItems] at h
    split at h
    · obtain ⟨hinv', hgrow⟩ := processItems_catalog cb d rest skip st st' h hinv hnd2
        (fun r hr hm => hdb r hr (List.mem_append_right _ hm))
      refine ⟨hinv', ?_⟩
      intro r hr
      rcases hgrow r hr with h0 | hp
      · exact Or.inl h0
      · rw [hsplit]
        exact Or.inr (List.mem_append_right _ hp)
    · rcases hps : processFiles ⟨cb, true⟩ d it.dirpath
          (it.files.filter (fun n =>
            (lookupFS (statsUpd st d (fun s =>
              { s with total_dir_count := s.total_dir_count + 1 })).fs
              (it.dirpath ++ [n])).isSome))
          (statsUpd st d (fun s => { s with total_dir_count := s.total_dir_count + 1 })) with
        herr | ⟨sk', st1⟩
      · rw [hps] at h
        exact Except.noConfusion h
      · simp only [hps] at h
        have hsubl : ((it.files.filter (fun n =>
            (lookupFS (statsUpd st d (fun s =>
              { s with total_dir_count := s.total_dir_count + 1 })).fs
              (it.dirpath ++ [n])).isSome)).map (fun n => it.dirpath ++ [n])).Sublist
            (itemFilePaths it) := List.Sublist.map _ (List.filter_sublist it.files)
        have hndf : ((it.files.filter (fun n =>
            (lookupFS (statsUpd st d (fun s =>
              { s with total_dir_count := s.total_dir_count + 1 })).fs
              (it.dirpath ++ [n])).isSome)).map (fun n => it.dirpath ++ [n])).Nodup :=
          hnd1.sublist hsubl
        obtain ⟨hinv1, hgrow1⟩ := processFiles_catalog cb d it.dirpath _ _ sk' st1 hps hinv
          hndf (fun r hr hm => hdb r hr (List.mem_append_left _ (hsubl.subset hm)))
        have hdb1 : ∀ r ∈ st1.db, r.full_path ∉ itemsFilePaths rest := by
          intro r hr
          rcases hgrow1 r hr with h0 | hp1
          · exact fun hm => hdb r h0 (List.mem_append_right _ hm)
          · exact hdisj (hsubl.subset hp1)
        obtain ⟨hinv', hgrow'⟩ := processItems_catalog cb d rest sk' st1 st' h hinv1 hnd2 hdb1
        refine ⟨hinv', ?_⟩
        intro r hr
        rcases hgrow' r hr with hr1 | hp
        · rcases hgrow1 r hr1 with h0 | hp1
          · exact Or.inl h0
          · rw [hsplit]
            exact Or.inr (List.mem_append_left _ (hsubl.subset hp1))
        · rw [hsplit]
          exact Or.inr (List.mem_append_right _ hp)

/-- The whole target phase preserves the catalog invariant when no file
path occurs twice across the walked target trees. -/
theorem walk_dirs_catalog (cb : Bool) :
    ∀ (roots : List (FPath × DirTree)) (st : RunState) (st' : RunState),
    walk_dirs ⟨cb, true⟩ roots st = .ok st' →
    CatalogInv st →
    (rootsFilePaths roots).Nodup →
    (∀ r ∈ st.db, r.full_path ∉ rootsFilePaths roots) →
    CatalogInv st' ∧ ∀ r ∈ st'.db, r ∈ st.db ∨ r.full_path ∈ rootsFilePaths roots
  | [], st, st' => by
    intro h hinv _ _
    simp only [walk_dirs] at h
    rw [← Except.ok.inj h]
    exact ⟨hinv, fun r hr => Or.inl hr⟩
  | rt :: rest, st, st' => by
    intro h hinv hnd hdb
    have hsplit : rootsFilePaths (rt :: rest) =
        itemsFilePaths (walkTree rt.1 rt.2) ++ rootsFilePaths rest := by
      simp [rootsFilePaths]
    rw [hsplit] at hnd hdb
    obtain ⟨hnd1, hnd2, hdisj⟩ := List.nodup_append.mp hnd
    simp only [walk_dirs] at h
    rcases hwr : walkRoot ⟨cb, true⟩ st rt with herr | st1
    · rw [hwr] at h
      exact Except.noConfusion h
    · simp only [hwr] at h
      have hwr' : processItems ⟨cb, true⟩ rt.1 (walkTree rt.1 rt.2) none
          (statsUpd st rt.1 (fun s => { s with is_target_dir := true })) = .ok st1 := hwr
      obtain ⟨hinv1, hgrow1⟩ := processItems_catalog cb rt.1 (walkTree rt.1 rt.2) none _ st1
        hwr' hinv hnd1 (fun r hr hm => hdb r hr (List.mem_append_left _ hm))
      have hdb1 : ∀ r ∈ st1.db, r.full_path ∉ rootsFilePaths rest := by
        intro r hr
        rcases hgrow1 r hr with h0 | hp1
        · exact fun hm => hdb r h0 (List.mem_append_right _ hm)
        · exact hdisj hp1
      obtain ⟨hinv', hgrow'⟩ := walk_dirs_catalog cb rest st1 st' h hinv1 hnd2 hdb1
      refine ⟨hinv', ?_⟩
      intro r hr
      rcases hgrow' r hr with hr1 | hp
      · rcases hgrow1 r hr1 with h0 | hp1
        · exact Or.inl h0
        · rw [hsplit]
          exact Or.inr (List.mem_append_left _ hp1)
      · rw [hsplit]
        exact Or.inr (List.mem_append_right _ hp)

/-- C2 (amended): after the target-root traversal of a run completes, the
catalog holds at most one entry per distinct pair of extension and byte
content — every catalogued file is still on disk with its recorded size,
and no two entries share both extension and bytes.  (The hypothesis — no
file path is walked twice — holds for real directory trees, whose sibling
names are distinct and whose validated roots do not overlap.) -/
theorem c2_catalog_unique_per_extension_content (targets ros : List (FPath × DirTree))
    (confirm : Bool) (pending : List String)
    (hnd : (rootsFilePaths targets).Nodup) :
    ExceptSat (walk_dirs ⟨confirm, true⟩ targets (initState targets ros pending)) (fun st =>
      (∀ r ∈ st.db, ∃ b, lookupFS st.fs r.full_path = some b ∧ b.length = r.size) ∧
      st.db.Pairwise (fun r1 r2 => r1.extension = r2.extension →
        lookupFS st.fs r1.full_path ≠ lookupFS st.fs r2.full_path)) := by
  rcases hw : walk_dirs ⟨confirm, true⟩ targets (initState targets ros pending) with herr | st'
  · exact trivial
  · have hinv0 : CatalogInv (initState targets ros pending) :=
      ⟨fun r hr => absurd hr (List.not_mem_nil r), List.Pairwise.nil⟩
    obtain ⟨hinv', _⟩ := walk_dirs_catalog confirm targets _ st' hw hinv0 hnd
      (fun r hr => absurd hr (List.not_mem_nil r))
    exact hinv'

/-- Witness for C2 (amended) on a two-file target tree with distinct
contents. -/
theorem c2_amended_witness :
    (rootsFilePaths [(["t"], .node [("a.x", [1]), ("b.x", [2])] .nil)]).Nodup ∧
    ExceptSat (walk_dirs ⟨false, true⟩ [(["t"], .node [("a.x", [1]), ("b.x", [2])] .nil)]
      (initState [(["t"], .node [("a.x", [1]), ("b.x", [2])] .nil)] [] [])) (fun st =>
      (∀ r ∈ st.db, ∃ b, lookupFS st.fs r.full_path = some b ∧ b.length = r.size) ∧
      st.db.Pairwise (fun r1 r2 => r1.extension = r2.extension →
        lookupFS st.fs r1.full_path ≠ lookupFS st.fs r2.full_path)) :=
  ⟨by decide, c2_catalog_unique_per_extension_content
    [(["t"], .node [("a.x", [1]), ("b.x", [2])] .nil)] [] false [] (by decide)⟩
